import Mathlib
/-!
# Verification of the hello-a2a repository against its specification

Shallow embedding of the parts of the repository that the claims touch:

* `A2AWire` — the wire-type model of `0.1/common/types.py` (pydantic models),
  with JSON encoders (`model_dump`, `None` fields emitted as `null`) and
  decoders (pydantic validation: field lookup by name, optional fields
  accept `null` or absence, discriminated unions on their literal tag).
  Python `datetime` timestamps are modelled by their ISO string; JSON numbers
  by integers (no claim touches float payloads).
* `TaskMgr` — `0.1/agents/task_manager.py` request validation and user-query
  extraction.
* `WebUI` — the WebUI host-manager task store of
  `hello-a2a-python/hosts/webui/frontend/service/server/{adk_host_manager,
  in_memory_manager}.py`: task list updates, the `task_callback` status
  branch, and chunked-artifact assembly (`process_artifact_event`).
* `App02` — the `0.2` smart dispatcher: the combiner of
  `app.py::SmartRequestHandler.execute`, the ambiguous-term context window of
  `app.py::analyze_ambiguous_term_context`, and the `__main__.py::QueryCache`.
-/

/-- JSON values. Numbers are modelled as integers: every numeric field the
claims touch (`index`, `historyLength`, JSON-RPC ids, error codes) is an int
in the source. -/
inductive Json : Type where
  | null : Json
  | bool : Bool → Json
  | str : String → Json
  | num : Int → Json
  | arr : List Json → Json
  | obj : List (String × Json) → Json

/-- Field lookup in a JSON object, first match (Python dict keys are unique). -/
def getField : List (String × Json) → String → Option Json
  | [], _ => none
  | (k, v) :: rest, key => if key = k then some v else getField rest key

/-- First-match association-list lookup (a Python `dict` read; keys are
unique by construction of the write operations). -/
def lookupKey {κ β : Type} [DecidableEq κ] : List (κ × β) → κ → Option β
  | [], _ => none
  | (k, v) :: rest, key => if key = k then some v else lookupKey rest key

/-- Replace the value under a key, keeping its position (a Python
`d[k] = v` on an existing key preserves insertion order). -/
def setKey {κ β : Type} [DecidableEq κ] : List (κ × β) → κ → β → List (κ × β)
  | [], _, _ => []
  | (k, v) :: rest, key, nv =>
    if key = k then (k, nv) :: rest else (k, v) :: setKey rest key nv

/-- Remove the entry under a key (Python `del d[k]`). -/
def eraseKey {κ β : Type} [DecidableEq κ] : List (κ × β) → κ → List (κ × β)
  | [], _ => []
  | (k, v) :: rest, key => if key = k then rest else (k, v) :: eraseKey rest key

/-- `d[k] = v` on a Python dict: overwrite in place if present, else append
in insertion order. -/
def setOrAppend {κ β : Type} [DecidableEq κ] (es : List (κ × β)) (k : κ)
    (v : β) : List (κ × β) :=
  match lookupKey es k with
  | none => es ++ [(k, v)]
  | some _ => setKey es k v

namespace A2AWire

/-- `TaskState` of `0.1/common/types.py` (a `str` Enum). The source defines
exactly four members. -/
inductive TaskState : Type where
  | submitted
  | working
  | completed
  | failed
deriving DecidableEq

/-- Serialization of `TaskState` (the enum's string value). -/
def TaskState.toStr : TaskState → String
  | .submitted => "submitted"
  | .working => "working"
  | .completed => "completed"
  | .failed => "failed"

/-- Deserialization of `TaskState`: pydantic accepts exactly the enum's
declared string values. -/
def TaskState.fromStr (s : String) : Option TaskState :=
  if s = "submitted" then some .submitted
  else if s = "working" then some .working
  else if s = "completed" then some .completed
  else if s = "failed" then some .failed
  else none

/-- `TextPart` of `0.1/common/types.py`. The `type` discriminator is the
literal `"text"` and is carried by the encoding, not the structure. -/
structure TextPart : Type where
  text : String
  metadata : Option (List (String × Json))

def encodeMeta : Option (List (String × Json)) → Json
  | none => Json.null
  | some kvs => Json.obj kvs

/-- Decode a metadata field value: absent or `null` is `None`, an object is
kept, anything else fails pydantic validation of `dict[str, Any] | None`. -/
def decodeMeta : Option Json → Option (Option (List (String × Json)))
  | none => some none
  | some Json.null => some none
  | some (Json.obj kvs) => some (some kvs)
  | some _ => none

def TextPart.encode (p : TextPart) : Json :=
  Json.obj [("type", Json.str "text"), ("text", Json.str p.text),
            ("metadata", encodeMeta p.metadata)]

def decodeStrField : Option Json → Option String
  | some (Json.str s) => some s
  | _ => none

def TextPart.decode : Json → Option TextPart
  | Json.obj fields =>
    match getField fields "type" with
    | some (Json.str "text") =>
      match decodeStrField (getField fields "text"),
            decodeMeta (getField fields "metadata") with
      | some t, some m => some ⟨t, m⟩
      | _, _ => none
    | _ => none
  | _ => none

def encodeOptStr : Option String → Json
  | none => Json.null
  | some s => Json.str s

/-- Decode an optional string field: absent or `null` is `None`. -/
def decodeOptStrField : Option Json → Option (Option String)
  | none => some none
  | some Json.null => some none
  | some (Json.str s) => some (some s)
  | some _ => none

/-- `FileContent` of `0.1/common/types.py`. -/
structure FileContent : Type where
  name : Option String
  mimeType : Option String
  bytes : Option String
  uri : Option String
deriving DecidableEq

/-- Python truthiness of an `str | None` field: `None` and `""` are falsy. -/
def truthy : Option String → Bool
  | none => false
  | some s => s != ""

/-- `FileContent.check_content`: the `model_validator` passes exactly when
`(bytes or uri)` holds and `(bytes and uri)` does not, under Python
truthiness. -/
def FileContent.check (fc : FileContent) : Bool :=
  (truthy fc.bytes || truthy fc.uri) && !(truthy fc.bytes && truthy fc.uri)

def FileContent.encode (fc : FileContent) : Json :=
  Json.obj [("name", encodeOptStr fc.name), ("mimeType", encodeOptStr fc.mimeType),
            ("bytes", encodeOptStr fc.bytes), ("uri", encodeOptStr fc.uri)]

/-- Decode `FileContent`: parse the four optional string fields, then run the
`check_content` validator; a validator exception is a decode failure. -/
def FileContent.decode : Json → Option FileContent
  | Json.obj fields =>
    match decodeOptStrField (getField fields "name"),
          decodeOptStrField (getField fields "mimeType"),
          decodeOptStrField (getField fields "bytes"),
          decodeOptStrField (getField fields "uri") with
    | some n, some mt, some b, some u =>
      let fc : FileContent := ⟨n, mt, b, u⟩
      if fc.check then some fc else none
    | _, _, _, _ => none
  | _ => none

/-- `FilePart` of `0.1/common/types.py`. -/
structure FilePart : Type where
  file : FileContent
  metadata : Option (List (String × Json))

def FilePart.encode (p : FilePart) : Json :=
  Json.obj [("type", Json.str "file"), ("file", p.file.encode),
            ("metadata", encodeMeta p.metadata)]

def FilePart.decode : Json → Option FilePart
  | Json.obj fields =>
    match getField fields "type" with
    | some (Json.str "file") =>
      match (getField fields "file").bind FileContent.decode,
            decodeMeta (getField fields "metadata") with
      | some fc, some m => some ⟨fc, m⟩
      | _, _ => none
    | _ => none
  | _ => none

/-- `DataPart` of `0.1/common/types.py`; `data` is a required `dict`. -/
structure DataPart : Type where
  data : List (String × Json)
  metadata : Option (List (String × Json))

def DataPart.encode (p : DataPart) : Json :=
  Json.obj [("type", Json.str "data"), ("data", Json.obj p.data),
            ("metadata", encodeMeta p.metadata)]

def DataPart.decode : Json → Option DataPart
  | Json.obj fields =>
    match getField fields "type" with
    | some (Json.str "data") =>
      match getField fields "data", decodeMeta (getField fields "metadata") with
      | some (Json.obj kvs), some m => some ⟨kvs, m⟩
      | _, _ => none
    | _ => none
  | _ => none

/-- `Part`, the discriminated union (discriminator `type`) of
`0.1/common/types.py`. -/
inductive Part : Type where
  | text : TextPart → Part
  | file : FilePart → Part
  | data : DataPart → Part

def Part.encode : Part → Json
  | .text p => p.encode
  | .file p => p.encode
  | .data p => p.encode

/-- Decode `Part` by its `type` discriminator, as pydantic does for
`Annotated[Union[...], Field(discriminator="type")]`. -/
def Part.decode (j : Json) : Option Part :=
  match j with
  | Json.obj fields =>
    match getField fields "type" with
    | some (Json.str "text") => (TextPart.decode j).map Part.text
    | some (Json.str "file") => (FilePart.decode j).map Part.file
    | some (Json.str "data") => (DataPart.decode j).map Part.data
    | _ => none
  | _ => none

/-- A `Part` is valid when every embedded `FileContent` passes its
validator (the only validator in the type model). -/
def Part.valid : Part → Bool
  | .text _ => true
  | .file p => p.file.check
  | .data _ => true

/-- Decode every element of a JSON array, failing if any element fails
(pydantic validation of a typed list field). -/
def decodeList {α : Type} (dec : Json → Option α) : List Json → Option (List α)
  | [] => some []
  | j :: js =>
    match dec j, decodeList dec js with
    | some a, some as => some (a :: as)
    | _, _ => none

/-- Decode an optional sub-model field: absent or `null` is `None`. -/
def decodeOptField {α : Type} (dec : Json → Option α) : Option Json → Option (Option α)
  | none => some none
  | some Json.null => some none
  | some j => (dec j).map some

def encodeOpt {α : Type} (enc : α → Json) : Option α → Json
  | none => Json.null
  | some a => enc a

/-- `role` of `Message`: `Literal["user", "agent"]`. -/
inductive Role : Type where
  | user
  | agent
deriving DecidableEq

def Role.toStr : Role → String
  | .user => "user"
  | .agent => "agent"

def Role.fromStr (s : String) : Option Role :=
  if s = "user" then some .user else if s = "agent" then some .agent else none

def decodeRoleField : Option Json → Option Role
  | some (Json.str s) => Role.fromStr s
  | _ => none

/-- `Message` of `0.1/common/types.py`. The `parts` list field has no
minimum-length constraint in the source. -/
structure Message : Type where
  role : Role
  parts : List Part
  metadata : Option (List (String × Json))

def Message.valid (m : Message) : Bool := m.parts.all Part.valid

def Message.encode (m : Message) : Json :=
  Json.obj [("role", Json.str m.role.toStr),
            ("parts", Json.arr (m.parts.map Part.encode)),
            ("metadata", encodeMeta m.metadata)]

def Message.decode : Json → Option Message
  | Json.obj fields =>
    match decodeRoleField (getField fields "role"),
          (match getField fields "parts" with
           | some (Json.arr js) => decodeList Part.decode js
           | _ => none),
          decodeMeta (getField fields "metadata") with
    | some r, some ps, some md => some ⟨r, ps, md⟩
    | _, _, _ => none
  | _ => none

/-- `TaskStatus` of `0.1/common/types.py`. The `datetime` timestamp is
modelled by its ISO string (the `field_serializer` emits `isoformat()`);
its `default_factory` (`datetime.now`) is the decoder's `fresh` argument. -/
structure TaskStatus : Type where
  state : TaskState
  message : Option Message
  timestamp : String

def TaskStatus.valid (st : TaskStatus) : Bool :=
  match st.message with
  | none => true
  | some m => m.valid

def TaskStatus.encode (st : TaskStatus) : Json :=
  Json.obj [("state", Json.str st.state.toStr),
            ("message", encodeOpt Message.encode st.message),
            ("timestamp", Json.str st.timestamp)]

def decodeStateField : Option Json → Option TaskState
  | some (Json.str s) => TaskState.fromStr s
  | _ => none

/-- Decode the timestamp: absent falls back to the `default_factory` value
`fresh`; a string is accepted. -/
def decodeTimestampField (fresh : String) : Option Json → Option String
  | none => some fresh
  | some (Json.str s) => some s
  | _ => none

def TaskStatus.decode (fresh : String) : Json → Option TaskStatus
  | Json.obj fields =>
    match decodeStateField (getField fields "state"),
          decodeOptField Message.decode (getField fields "message"),
          decodeTimestampField fresh (getField fields "timestamp") with
    | some st, some msg, some ts => some ⟨st, msg, ts⟩
    | _, _, _ => none
  | _ => none

def encodeOptBool : Option Bool → Json
  | none => Json.null
  | some b => Json.bool b

def decodeOptBoolField : Option Json → Option (Option Bool)
  | none => some none
  | some Json.null => some none
  | some (Json.bool b) => some (some b)
  | some _ => none

/-- Decode an `int` field with a declared default (`index: int = 0`). -/
def decodeIntFieldD (d : Int) : Option Json → Option Int
  | none => some d
  | some (Json.num n) => some n
  | some _ => none

/-- `Artifact` of `0.1/common/types.py`. -/
structure Artifact : Type where
  name : Option String
  description : Option String
  parts : List Part
  metadata : Option (List (String × Json))
  index : Int
  append : Option Bool
  lastChunk : Option Bool

def Artifact.valid (a : Artifact) : Bool := a.parts.all Part.valid

def Artifact.encode (a : Artifact) : Json :=
  Json.obj [("name", encodeOptStr a.name), ("description", encodeOptStr a.description),
            ("parts", Json.arr (a.parts.map Part.encode)),
            ("metadata", encodeMeta a.metadata), ("index", Json.num a.index),
            ("append", encodeOptBool a.append), ("lastChunk", encodeOptBool a.lastChunk)]

def Artifact.decode : Json → Option Artifact
  | Json.obj fields =>
    match decodeOptStrField (getField fields "name"),
          decodeOptStrField (getField fields "description"),
          (match getField fields "parts" with
           | some (Json.arr js) => decodeList Part.decode js
           | _ => none),
          decodeMeta (getField fields "metadata"),
          decodeIntFieldD 0 (getField fields "index"),
          decodeOptBoolField (getField fields "append"),
          decodeOptBoolField (getField fields "lastChunk") with
    | some n, some d, some ps, some md, some i, some ap, some lc =>
      some ⟨n, d, ps, md, i, ap, lc⟩
    | _, _, _, _, _, _, _ => none
  | _ => none

/-- Decode an optional list-of-models field (`List[X] | None`). -/
def decodeOptListField {α : Type} (dec : Json → Option α) :
    Option Json → Option (Option (List α))
  | none => some none
  | some Json.null => some none
  | some (Json.arr js) => (decodeList dec js).map some
  | some _ => none

/-- `Task` of `0.1/common/types.py`. -/
structure Task : Type where
  id : String
  sessionId : Option String
  status : TaskStatus
  artifacts : Option (List Artifact)
  history : Option (List Message)
  metadata : Option (List (String × Json))

def Task.valid (t : Task) : Bool :=
  t.status.valid &&
    (match t.artifacts with
     | none => true
     | some arts => arts.all Artifact.valid) &&
    (match t.history with
     | none => true
     | some msgs => msgs.all Message.valid)

def Task.encode (t : Task) : Json :=
  Json.obj [("id", Json.str t.id), ("sessionId", encodeOptStr t.sessionId),
            ("status", t.status.encode),
            ("artifacts", encodeOpt (fun l => Json.arr (l.map Artifact.encode)) t.artifacts),
            ("history", encodeOpt (fun l => Json.arr (l.map Message.encode)) t.history),
            ("metadata", encodeMeta t.metadata)]

def Task.decode (fresh : String) : Json → Option Task
  | Json.obj fields =>
    match decodeStrField (getField fields "id"),
          decodeOptStrField (getField fields "sessionId"),
          (getField fields "status").bind (TaskStatus.decode fresh),
          decodeOptListField Artifact.decode (getField fields "artifacts"),
          decodeOptListField Message.decode (getField fields "history"),
          decodeMeta (getField fields "metadata") with
    | some i, some sid, some st, some arts, some hist, some md =>
      some ⟨i, sid, st, arts, hist, md⟩
    | _, _, _, _, _, _ => none
  | _ => none

def decodeStr : Json → Option String
  | Json.str s => some s
  | _ => none

/-- Decode an optional `List[str]` field. -/
def decodeOptStrListField : Option Json → Option (Option (List String))
  | none => some none
  | some Json.null => some none
  | some (Json.arr js) => (decodeList decodeStr js).map some
  | some _ => none

def decodeOptIntField : Option Json → Option (Option Int)
  | none => some none
  | some Json.null => some none
  | some (Json.num n) => some (some n)
  | some _ => none

/-- `AuthenticationInfo` of `0.1/common/types.py` (`extra="allow"` extras are
not modelled; the repository's own encodings carry none). -/
structure AuthenticationInfo : Type where
  schemes : List String
  credentials : Option String

def AuthenticationInfo.encode (ai : AuthenticationInfo) : Json :=
  Json.obj [("schemes", Json.arr (ai.schemes.map Json.str)),
            ("credentials", encodeOptStr ai.credentials)]

def AuthenticationInfo.decode : Json → Option AuthenticationInfo
  | Json.obj fields =>
    match (match getField fields "schemes" with
           | some (Json.arr js) => decodeList decodeStr js
           | _ => none),
          decodeOptStrField (getField fields "credentials") with
    | some s, some c => some ⟨s, c⟩
    | _, _ => none
  | _ => none

/-- `PushNotificationConfig` of `0.1/common/types.py`. -/
structure PushNotificationConfig : Type where
  url : String
  token : Option String
  authentication : Option AuthenticationInfo

def PushNotificationConfig.encode (c : PushNotificationConfig) : Json :=
  Json.obj [("url", Json.str c.url), ("token", encodeOptStr c.token),
            ("authentication", encodeOpt AuthenticationInfo.encode c.authentication)]

def PushNotificationConfig.decode : Json → Option PushNotificationConfig
  | Json.obj fields =>
    match decodeStrField (getField fields "url"),
          decodeOptStrField (getField fields "token"),
          decodeOptField AuthenticationInfo.decode (getField fields "authentication") with
    | some u, some t, some a => some ⟨u, t, a⟩
    | _, _, _ => none
  | _ => none

/-- `TaskSendParams` of `0.1/common/types.py`. `sessionId` has a
`default_factory` (fresh uuid), the decoder's `fresh` argument. -/
structure TaskSendParams : Type where
  id : String
  sessionId : String
  message : Message
  acceptedOutputModes : Option (List String)
  pushNotification : Option PushNotificationConfig
  historyLength : Option Int
  metadata : Option (List (String × Json))

def TaskSendParams.valid (p : TaskSendParams) : Bool := p.message.valid

def TaskSendParams.encode (p : TaskSendParams) : Json :=
  Json.obj [("id", Json.str p.id), ("sessionId", Json.str p.sessionId),
            ("message", p.message.encode),
            ("acceptedOutputModes",
              encodeOpt (fun l => Json.arr (l.map Json.str)) p.acceptedOutputModes),
            ("pushNotification", encodeOpt PushNotificationConfig.encode p.pushNotification),
            ("historyLength",
              encodeOpt (fun n => Json.num n) p.historyLength),
            ("metadata", encodeMeta p.metadata)]

def decodeStrFieldD (d : String) : Option Json → Option String
  | none => some d
  | some (Json.str s) => some s
  | _ => none

def TaskSendParams.decode (fresh : String) : Json → Option TaskSendParams
  | Json.obj fields =>
    match decodeStrField (getField fields "id"),
          decodeStrFieldD fresh (getField fields "sessionId"),
          (getField fields "message").bind Message.decode,
          decodeOptStrListField (getField fields "acceptedOutputModes"),
          decodeOptField PushNotificationConfig.decode (getField fields "pushNotification"),
          decodeOptIntField (getField fields "historyLength"),
          decodeMeta (getField fields "metadata") with
    | some i, some sid, some msg, some aom, some pn, some hl, some md =>
      some ⟨i, sid, msg, aom, pn, hl, md⟩
    | _, _, _, _, _, _, _ => none
  | _ => none

/-- A JSON-RPC message id: `int | str | None` (`None` is an explicit value;
an absent field takes the `default_factory` fresh uuid). -/
inductive RpcId : Type where
  | num : Int → RpcId
  | str : String → RpcId
  | nullId : RpcId
deriving DecidableEq

def RpcId.encode : RpcId → Json
  | .num n => Json.num n
  | .str s => Json.str s
  | .nullId => Json.null

def decodeRpcIdField (fresh : String) : Option Json → Option RpcId
  | none => some (.str fresh)
  | some Json.null => some .nullId
  | some (Json.num n) => some (.num n)
  | some (Json.str s) => some (.str s)
  | some _ => none

/-- A literal string field with that literal as default (pydantic
`Literal["v"] = "v"`): absent is accepted, any other value rejected. -/
def checkLiteralField (v : String) : Option Json → Bool
  | none => true
  | some (Json.str s) => s = v
  | some _ => false

/-- `SendTaskRequest` of `0.1/common/types.py`: the JSON-RPC envelope for
`tasks/send`. The `jsonrpc` and `method` fields are literals carried by the
encoding. -/
structure SendTaskRequest : Type where
  id : RpcId
  params : TaskSendParams

def SendTaskRequest.valid (r : SendTaskRequest) : Bool := r.params.valid

def SendTaskRequest.encode (r : SendTaskRequest) : Json :=
  Json.obj [("jsonrpc", Json.str "2.0"), ("id", r.id.encode),
            ("method", Json.str "tasks/send"), ("params", r.params.encode)]

def SendTaskRequest.decode (fresh : String) : Json → Option SendTaskRequest
  | Json.obj fields =>
    if checkLiteralField "2.0" (getField fields "jsonrpc") &&
       checkLiteralField "tasks/send" (getField fields "method") then
      match decodeRpcIdField fresh (getField fields "id"),
            (getField fields "params").bind (TaskSendParams.decode fresh) with
      | some i, some p => some ⟨i, p⟩
      | _, _ => none
    else none
  | _ => none

/-- `AgentProvider` of `0.1/common/types.py`. -/
structure AgentProvider : Type where
  organization : String
  url : Option String

def AgentProvider.encode (p : AgentProvider) : Json :=
  Json.obj [("organization", Json.str p.organization), ("url", encodeOptStr p.url)]

def AgentProvider.decode : Json → Option AgentProvider
  | Json.obj fields =>
    match decodeStrField (getField fields "organization"),
          decodeOptStrField (getField fields "url") with
    | some o, some u => some ⟨o, u⟩
    | _, _ => none
  | _ => none

/-- Decode a `bool` field with a declared default. -/
def decodeBoolFieldD (d : Bool) : Option Json → Option Bool
  | none => some d
  | some (Json.bool b) => some b
  | _ => none

/-- `AgentCapabilities` of `0.1/common/types.py` (three bools, default
`False`). -/
structure AgentCapabilities : Type where
  streaming : Bool
  pushNotifications : Bool
  stateTransitionHistory : Bool
deriving DecidableEq

def AgentCapabilities.encode (c : AgentCapabilities) : Json :=
  Json.obj [("streaming", Json.bool c.streaming),
            ("pushNotifications", Json.bool c.pushNotifications),
            ("stateTransitionHistory", Json.bool c.stateTransitionHistory)]

def AgentCapabilities.decode : Json → Option AgentCapabilities
  | Json.obj fields =>
    match decodeBoolFieldD false (getField fields "streaming"),
          decodeBoolFieldD false (getField fields "pushNotifications"),
          decodeBoolFieldD false (getField fields "stateTransitionHistory") with
    | some s, some pn, some st => some ⟨s, pn, st⟩
    | _, _, _ => none
  | _ => none

/-- `AgentAuthentication` of `0.1/common/types.py`. -/
structure AgentAuthentication : Type where
  schemes : List String
  credentials : Option String

def AgentAuthentication.encode (a : AgentAuthentication) : Json :=
  Json.obj [("schemes", Json.arr (a.schemes.map Json.str)),
            ("credentials", encodeOptStr a.credentials)]

def AgentAuthentication.decode : Json → Option AgentAuthentication
  | Json.obj fields =>
    match (match getField fields "schemes" with
           | some (Json.arr js) => decodeList decodeStr js
           | _ => none),
          decodeOptStrField (getField fields "credentials") with
    | some s, some c => some ⟨s, c⟩
    | _, _ => none
  | _ => none

/-- `AgentSkill` of `0.1/common/types.py`. -/
structure AgentSkill : Type where
  id : String
  name : String
  description : Option String
  tags : Option (List String)
  examples : Option (List String)
  inputModes : Option (List String)
  outputModes : Option (List String)

def AgentSkill.encode (s : AgentSkill) : Json :=
  Json.obj [("id", Json.str s.id), ("name", Json.str s.name),
            ("description", encodeOptStr s.description),
            ("tags", encodeOpt (fun l => Json.arr (l.map Json.str)) s.tags),
            ("examples", encodeOpt (fun l => Json.arr (l.map Json.str)) s.examples),
            ("inputModes", encodeOpt (fun l => Json.arr (l.map Json.str)) s.inputModes),
            ("outputModes", encodeOpt (fun l => Json.arr (l.map Json.str)) s.outputModes)]

def AgentSkill.decode : Json → Option AgentSkill
  | Json.obj fields =>
    match decodeStrField (getField fields "id"),
          decodeStrField (getField fields "name"),
          decodeOptStrField (getField fields "description"),
          decodeOptStrListField (getField fields "tags"),
          decodeOptStrListField (getField fields "examples"),
          decodeOptStrListField (getField fields "inputModes"),
          decodeOptStrListField (getField fields "outputModes") with
    | some i, some n, some d, some t, some e, some im, some om =>
      some ⟨i, n, d, t, e, im, om⟩
    | _, _, _, _, _, _, _ => none
  | _ => none

/-- A `List[str]` field with a declared default (`["text"]`). -/
def decodeStrListFieldD (d : List String) : Option Json → Option (List String)
  | none => some d
  | some (Json.arr js) => decodeList decodeStr js
  | _ => none

/-- `AgentCard` of `0.1/common/types.py`. -/
structure AgentCard : Type where
  name : String
  description : Option String
  url : String
  provider : Option AgentProvider
  version : String
  documentationUrl : Option String
  capabilities : AgentCapabilities
  authentication : Option AgentAuthentication
  defaultInputModes : List String
  defaultOutputModes : List String
  skills : List AgentSkill

def AgentCard.encode (c : AgentCard) : Json :=
  Json.obj [("name", Json.str c.name), ("description", encodeOptStr c.description),
            ("url", Json.str c.url),
            ("provider", encodeOpt AgentProvider.encode c.provider),
            ("version", Json.str c.version),
            ("documentationUrl", encodeOptStr c.documentationUrl),
            ("capabilities", c.capabilities.encode),
            ("authentication", encodeOpt AgentAuthentication.encode c.authentication),
            ("defaultInputModes", Json.arr (c.defaultInputModes.map Json.str)),
            ("defaultOutputModes", Json.arr (c.defaultOutputModes.map Json.str)),
            ("skills", Json.arr (c.skills.map AgentSkill.encode))]

def AgentCard.decode : Json → Option AgentCard
  | Json.obj fields =>
    match decodeStrField (getField fields "name"),
          decodeOptStrField (getField fields "description"),
          decodeStrField (getField fields "url"),
          decodeOptField AgentProvider.decode (getField fields "provider"),
          decodeStrField (getField fields "version"),
          decodeOptStrField (getField fields "documentationUrl"),
          (getField fields "capabilities").bind AgentCapabilities.decode,
          decodeOptField AgentAuthentication.decode (getField fields "authentication"),
          decodeStrListFieldD ["text"] (getField fields "defaultInputModes"),
          decodeStrListFieldD ["text"] (getField fields "defaultOutputModes"),
          (match getField fields "skills" with
           | some (Json.arr js) => decodeList AgentSkill.decode js
           | _ => none) with
    | some n, some d, some u, some p, some v, some du, some cap, some au,
      some dim, some dom, some sk => some ⟨n, d, u, p, v, du, cap, au, dim, dom, sk⟩
    | _, _, _, _, _, _, _, _, _, _, _ => none
  | _ => none

/-- A concrete completed task used to witness the round-trip theorem. -/
def sampleTask : Task :=
  ⟨"t1", some "s1", ⟨.completed, none, "2024-01-01T00:00:00"⟩,
   some [⟨some "a", none, [Part.text ⟨"pong", none⟩], none, 0, none, none⟩],
   some [⟨.user, [Part.text ⟨"ping", none⟩], none⟩], none⟩

/-- A concrete `tasks/send` request used to witness the round-trip theorem. -/
def sampleRequest : SendTaskRequest :=
  ⟨.str "1", ⟨"t1", "s1", ⟨.user, [Part.text ⟨"ping", none⟩], none⟩,
   some ["text"], none, none, none⟩⟩

end A2AWire

namespace TaskMgr

open A2AWire

/-- A JSON-RPC error payload (`JSONRPCError` of `0.1/common/types.py`). -/
structure JSONRPCError : Type where
  code : Int
  message : String
deriving DecidableEq

/-- `InvalidParamsError` of `0.1/common/types.py`. -/
def invalidParamsError (msg : String) : JSONRPCError := ⟨-32602, msg⟩

/-- `ContentTypeNotSupportedError` of `0.1/common/types.py`. -/
def contentTypeNotSupportedError : JSONRPCError := ⟨-32005, "Incompatible content types"⟩

/-- `ElementAgent.SUPPORTED_CONTENT_TYPES` of `0.1/agents/agent.py`. -/
def supportedContentTypes : List String := ["text", "text/plain"]

/-- Modelled from the spec: `common.server.utils.are_modalities_compatible`
is not among the sources (only `0.1/common/{types.py, client, utils/logger}`
are); §4.4 states "Incoming `acceptedOutputModes` must intersect the agent's
declared output modes; else -32005". -/
def areModalitiesCompatible (clientModes serverModes : List String) : Bool :=
  clientModes.any (fun m => serverModes.contains m)

/-- `AgentTaskManager._validate_request` of `0.1/agents/task_manager.py`:
checks output-mode compatibility, then a present-but-empty push-notification
URL; returns the error of the response it would build, if any. -/
def validateRequest (p : TaskSendParams) : Option JSONRPCError :=
  if ¬ areModalitiesCompatible (p.acceptedOutputModes.getD []) supportedContentTypes then
    some contentTypeNotSupportedError
  else
    match p.pushNotification with
    | some c =>
      if c.url = "" then some (invalidParamsError "Push notification URL is missing")
      else none
    | none => none

/-- `AgentTaskManager._get_user_query` of `0.1/agents/task_manager.py`:
empty `parts` and non-text leading parts raise `ValueError`. -/
def getUserQuery (p : TaskSendParams) : Except String String :=
  match p.message.parts with
  | [] => .error "Message parts cannot be empty"
  | part :: _ =>
    match part with
    | .text tp => .ok tp.text
    | _ => .error "Only text parts are supported"

/-- The fate of a `tasks/send` request in `on_send_task`
(`0.1/agents/task_manager.py`): an error response from validation, a raised
exception, or progression to `self.agent.invoke(query, sessionId)`.
(`upsert_task` and `update_store(WORKING)` run between validation and query
extraction; they do not alter which of the three fates occurs.) -/
inductive SendOutcome : Type where
  | errResponse : JSONRPCError → SendOutcome
  | raised : String → SendOutcome
  | agentInvoked : String → SendOutcome
deriving DecidableEq

/-- Control flow of `on_send_task` for a request with no push notification:
validation first, then `_get_user_query` (whose `ValueError` propagates out
of the handler; it is not converted to a JSON-RPC error by the task
manager). -/
def onSendTaskOutcome (p : TaskSendParams) : SendOutcome :=
  match validateRequest p with
  | some e => .errResponse e
  | none =>
    match getUserQuery p with
    | .error m => .raised m
    | .ok q => .agentInvoked q

/-- A concrete `tasks/send` params whose message has zero parts. -/
def emptyPartsParams : TaskSendParams :=
  ⟨"t1", "s1", ⟨.user, [], none⟩, some ["text"], none, none, none⟩

end TaskMgr

namespace WebUI

/-- The `a2a.types.TaskState` enum used by the WebUI host manager (an
external dependency of `hello-a2a-python`). -/
inductive TaskState : Type where
  | submitted
  | working
  | inputRequired
  | completed
  | canceled
  | failed
  | rejected
  | authRequired
  | unknown
deriving DecidableEq

/-- The terminal states named by the claim: `completed`, `canceled`,
`failed`. -/
def TaskState.isTerminal : TaskState → Bool
  | .completed => true
  | .canceled => true
  | .failed => true
  | _ => false

/-- An `a2a.types.Message` as the host-manager update paths consume it:
only `messageId` is inspected (`insert_message_history`). -/
structure Message : Type where
  messageId : String
deriving DecidableEq

structure TaskStatus : Type where
  state : TaskState
  message : Option Message
deriving DecidableEq

/-- An `a2a.types.Artifact` as `process_artifact_event` consumes it; the
part payload type is abstract (`α`), the code never inspects parts. -/
structure Artifact (α : Type) : Type where
  artifactId : String
  name : Option String
  parts : List α
deriving DecidableEq

/-- An `a2a.types.Task` as the host-manager update paths consume it. -/
structure Task (α : Type) : Type where
  id : String
  contextId : Option String
  status : TaskStatus
  artifacts : Option (List (Artifact α))
  history : Option (List Message)
deriving DecidableEq

structure TaskStatusUpdateEvent : Type where
  taskId : String
  contextId : Option String
  status : TaskStatus
deriving DecidableEq

/-- An `a2a.types.TaskArtifactUpdateEvent`: `append` and `lastChunk` are
`bool | None` on the event, the artifact rides along. -/
structure TaskArtifactUpdateEvent (α : Type) : Type where
  taskId : String
  contextId : Option String
  artifact : Artifact α
  append : Option Bool
  lastChunk : Option Bool
deriving DecidableEq

/-- Python truthiness of a `bool | None`: only `True` is truthy. -/
def truthyOB : Option Bool → Bool
  | some true => true
  | _ => false

/-- `current_task.artifacts.append(a)` guarded by
`if not current_task.artifacts: current_task.artifacts = []` (and the
`[temp]`-assignment twin in the append branch): `None` and `[]` both become
the one-element list. -/
def artifactsAppend {α : Type} (arts : Option (List (Artifact α))) (a : Artifact α) :
    Option (List (Artifact α)) :=
  match arts with
  | none => some [a]
  | some l => some (l ++ [a])

/-- The temporary per-`artifactId` chunk store
(`ADKHostManager._artifact_chunks : dict[str, list[Artifact]]`). -/
abbrev Chunks (α : Type) : Type := List (String × List (Artifact α))

/-- `self._artifact_chunks.setdefault(id, []).append(artifact)` written as
the source spells it: create the key with `[]` if absent, then append. -/
def chunksStash {α : Type} (cs : Chunks α) (key : String) (a : Artifact α) : Chunks α :=
  match lookupKey cs key with
  | none => cs ++ [(key, [a])]
  | some l => setKey cs key (l ++ [a])

/-- `ADKHostManager.process_artifact_event`: acts on the current task's
artifact list and the chunk store; returns both updated. -/
def processArtifactEvent {α : Type} (t : Task α) (cs : Chunks α)
    (e : TaskArtifactUpdateEvent α) : Task α × Chunks α :=
  let a := e.artifact
  if truthyOB e.append = false then
    if e.lastChunk = none ∨ e.lastChunk = some true then
      ({ t with artifacts := artifactsAppend t.artifacts a }, cs)
    else
      (t, chunksStash cs a.artifactId a)
  else
    match lookupKey cs a.artifactId with
    | none => (t, cs)
    | some l =>
      match l.getLast? with
      | none => (t, cs)
      | some temp =>
        let temp' := { temp with parts := temp.parts ++ a.parts }
        if e.lastChunk = some true then
          ({ t with artifacts := artifactsAppend t.artifacts temp' },
           if l.dropLast.isEmpty then eraseKey cs a.artifactId
           else setKey cs a.artifactId l.dropLast)
        else
          (t, setKey cs a.artifactId (l.dropLast ++ [temp']))

/-- `update_task` of both `ADKHostManager` and `InMemoryFakeAgentManager`:
replace the first task with a matching id, unconditionally. -/
def updateTask {α : Type} : List (Task α) → Task α → List (Task α)
  | [], _ => []
  | t :: rest, nt => if t.id = nt.id then nt :: rest else t :: updateTask rest nt

/-- `next(filter(lambda x: x.id == task_id, self._tasks), None)`. -/
def firstTask {α : Type} : List (Task α) → String → Option (Task α)
  | [], _ => none
  | t :: rest, tid => if t.id = tid then some t else firstTask rest tid

/-- `ADKHostManager.add_or_get_task` for a status event: find the task by
id, or append a fresh `submitted` task with empty artifacts. -/
def addOrGetTask {α : Type} (tasks : List (Task α)) (tid : String)
    (ctx : Option String) : Task α × List (Task α) :=
  match firstTask tasks tid with
  | some t => (t, tasks)
  | none =>
    let nt : Task α := ⟨tid, ctx, ⟨.submitted, none⟩, some [], none⟩
    (nt, tasks ++ [nt])

/-- The history list `ADKHostManager.insert_message_history` leaves on the
task when called with message `m`: the `None` history was already replaced
by `[]`, then the task's own `status.message` is appended under the
source's guards. -/
def newHistory {α : Type} (t : Task α) (m : Message) : List Message :=
  let hist := t.history.getD []
  if m.messageId = "" then hist
  else if hist ≠ [] then
    match t.status.message with
    | some sm =>
      if sm.messageId ∉ hist.map Message.messageId then hist ++ [sm] else hist
    | none => hist
  else
    match t.status.message with
    | some sm => [sm]
    | none => hist

/-- `ADKHostManager.insert_message_history`: every branch changes only the
`history` field (or nothing, when the message argument is `None`). -/
def insertMessageHistory {α : Type} (t : Task α) (msg : Option Message) : Task α :=
  match msg with
  | none => t
  | some m => { t with history := some (newHistory t m) }

/-- The `TaskStatusUpdateEvent` branch of `ADKHostManager.task_callback`:
`add_or_get_task`, overwrite `status`, `insert_message_history`,
`update_task` — with no check of the stored task's state. `fresh` is the
uuid used when the event's task id is falsy. -/
def handleStatusEvent {α : Type} (tasks : List (Task α))
    (e : TaskStatusUpdateEvent) (fresh : String) : List (Task α) :=
  let tid := if e.taskId = "" then fresh else e.taskId
  let (cur, tasks1) := addOrGetTask tasks tid e.contextId
  let cur1 := { cur with status := e.status }
  let cur2 := insertMessageHistory cur1 e.status.message
  updateTask tasks1 cur2

/-- A terminal stored task for the C1 counterexample (part payloads are
`Nat`). -/
def doneTask : Task Nat := ⟨"t1", none, ⟨.completed, none⟩, some [], none⟩

/-- The status update event arriving after `doneTask` completed. -/
def lateEvent : TaskStatusUpdateEvent := ⟨"t1", none, ⟨.working, none⟩⟩

/-- Fold a list of artifact-update events through
`process_artifact_event`. -/
def stepArtifact {α : Type} (s : Task α × Chunks α)
    (e : TaskArtifactUpdateEvent α) : Task α × Chunks α :=
  processArtifactEvent s.1 s.2 e

/-- The event sequence of the claim: an opening chunk
(`append=False, lastChunk=False`), middle `append=True` chunks, and a final
`append=True, lastChunk=True` chunk, all sharing one `artifactId`. -/
def artifactChunkEvents {α : Type} (a0 : Artifact α) (mids : List (List α))
    (q : List α) : List (TaskArtifactUpdateEvent α) :=
  ⟨a0.artifactId, none, a0, some false, some false⟩ ::
    (mids.map (fun p =>
        (⟨a0.artifactId, none, ⟨a0.artifactId, none, p⟩, some true, some false⟩ :
          TaskArtifactUpdateEvent α)) ++
      [⟨a0.artifactId, none, ⟨a0.artifactId, none, q⟩, some true, some true⟩])

end WebUI

namespace App02

/-- The result-combination step of `SmartRequestHandler.execute` in
`0.2/app.py`: given the keyword verdict and confidence and the LLM verdict
(`none` when `analyze_request` raised), produce the final agent type and
confidence. -/
def combineAnalysis (keywordResult : String) (keywordConfidence : ℚ)
    (llmResult : Option String) : String × ℚ :=
  match llmResult with
  | none => (keywordResult, keywordConfidence)
  | some l =>
    if keywordResult ≠ l then
      if keywordConfidence < 0.65 then (l, 0.8)
      else (keywordResult, keywordConfidence)
    else (keywordResult, max keywordConfidence 0.85)

/-- `text.find(term)` of Python `str.find` on character lists: index of the
first occurrence, `None` for `-1`. -/
def findSub : List Char → List Char → Option Nat
  | text, term =>
    if term.isPrefixOf text then some 0
    else
      match text with
      | [] => none
      | _ :: rest => (findSub rest term).map (· + 1)

/-- The context extraction of `analyze_ambiguous_term_context` in
`0.2/app.py` with its radius left as a parameter:
`text[max(0, pos - radius) : min(len(text), pos + len(term) + radius)]`
around the first occurrence of the term. -/
def windowSpec (radius : Nat) (text term : List Char) : Option (List Char) :=
  match findSub text term with
  | none => none
  | some pos =>
    let start := pos - radius
    let stop := min text.length (pos + term.length + radius)
    some ((text.drop start).take (stop - start))

/-- The context-window extraction of `analyze_ambiguous_term_context` in
`0.2/app.py`: `window_size = 50`; `term_pos = text.find(term)` (`-1` means
no window is scored); `start = max(0, term_pos - window_size)`;
`end = min(len(text), term_pos + len(term) + window_size)`;
`window_text = text[start:end]`. -/
def ambiguousWindow (text term : List Char) : Option (List Char) :=
  match findSub text term with
  | none => none
  | some termPos =>
    let start := termPos - 50
    let stop := min text.length (termPos + term.length + 50)
    some ((text.drop start).take (stop - start))

/-- `QueryCache` of `0.2/__main__.py`: entries are
`key ↦ (result, timestamp)` in dict insertion order; keys are the
character lists of the normalized query strings. -/
structure QueryCache (α : Type) : Type where
  cache : List (List Char × α × Nat)
  maxSize : Nat
  ttl : Nat
deriving DecidableEq

/-- `query.lower().split()`: split on whitespace, accumulating the current
word (Python's no-argument `split` drops the empty fragments that the
filter below removes). -/
def splitWsAux : List Char → List Char → List (List Char)
  | [], acc => [acc.reverse]
  | c :: rest, acc =>
    if c.isWhitespace then acc.reverse :: splitWsAux rest []
    else splitWsAux rest (c :: acc)

/-- `QueryCache._normalize_query`: `' '.join(query.lower().split())` —
lowercase, split on whitespace runs, re-join single-spaced. -/
def normalizeQuery (q : List Char) : List Char :=
  List.intercalate [' ']
    ((splitWsAux (q.map Char.toLower) []).filter (fun w => w ≠ []))

/-- The first entry with minimal timestamp:
`min(self.cache.keys(), key=lambda k: self.cache[k]["timestamp"])`
(Python `min` keeps the first minimum in iteration order). -/
def oldestEntry {κ α : Type} : List (κ × α × Nat) → Option (κ × Nat)
  | [] => none
  | (k, _, ts) :: rest =>
    match oldestEntry rest with
    | none => some (k, ts)
    | some (k', ts') => if ts ≤ ts' then some (k, ts) else some (k', ts')

/-- `QueryCache.get`: normalize the key, miss on absence, expire (and
delete) entries older than the TTL. Returns the result and the cache it
leaves behind. -/
def QueryCache.get {α : Type} (c : QueryCache α) (query : List Char) (now : Nat) :
    Option α × QueryCache α :=
  let key := normalizeQuery query
  match lookupKey c.cache key with
  | none => (none, c)
  | some (r, ts) =>
    if now - ts ≤ c.ttl then (some r, c)
    else (none, { c with cache := eraseKey c.cache key })

/-- `QueryCache.set`: normalize the key; if the cache is full
(`len >= max_size`), delete the entry with the oldest timestamp; then store
`(result, now)` under the key. -/
def QueryCache.set {α : Type} (c : QueryCache α) (query : List Char) (result : α)
    (now : Nat) : QueryCache α :=
  let key := normalizeQuery query
  let entries :=
    if c.cache.length ≥ c.maxSize then
      match oldestEntry c.cache with
      | some (k, _) => eraseKey c.cache k
      | none => c.cache
    else c.cache
  { c with cache := setOrAppend entries key (result, now) }

/-- The concrete query text `'a' * 60 ++ "gold"` whose occurrence of
`gold` sits deep enough that a ±50 and a ±100 window differ. -/
def c5Text : List Char := List.replicate 60 'a' ++ "gold".toList

/-- The cache for the C6 counterexample: capacity two, generous TTL. -/
def lruCacheC6 : QueryCache Nat := (((⟨[], 2, 1000⟩ : QueryCache Nat).set
  "a".toList 1 0).set "b".toList 2 1).set "c".toList 3 3

end App02

namespace A2AWire

theorem textPart_roundtrip (p : TextPart) : TextPart.decode p.encode = some p := by
  cases p with
  | mk t m =>
    cases m <;> simp [TextPart.encode, TextPart.decode, getField, encodeMeta,
      decodeMeta, decodeStrField]

theorem fileContent_roundtrip (fc : FileContent) (h : fc.check = true) :
    FileContent.decode fc.encode = some fc := by
  cases fc with
  | mk n mt b u =>
    cases n <;> cases mt <;> cases b <;> cases u <;>
      simp_all [FileContent.encode, FileContent.decode, getField,
        encodeOptStr, decodeOptStrField]

theorem filePart_roundtrip (p : FilePart) (h : p.file.check = true) :
    FilePart.decode p.encode = some p := by
  cases p with
  | mk fc m =>
    cases m <;>
      simp_all [FilePart.encode, FilePart.decode, getField, encodeMeta,
        decodeMeta, fileContent_roundtrip fc h]

theorem dataPart_roundtrip (p : DataPart) : DataPart.decode p.encode = some p := by
  cases p with
  | mk d m =>
    cases m <;> simp [DataPart.encode, DataPart.decode, getField, encodeMeta, decodeMeta]

theorem part_roundtrip (p : Part) (h : p.valid = true) :
    Part.decode p.encode = some p := by
  cases p with
  | text q =>
    cases q with
    | mk t m =>
      cases m <;>
        simp [Part.decode, Part.encode, TextPart.encode, TextPart.decode,
          getField, encodeMeta, decodeMeta, decodeStrField]
  | file q =>
    have hq := filePart_roundtrip q h
    cases q with
    | mk fc m =>
      simp only [Part.encode, Part.decode, FilePart.encode, getField]
      simp_all [FilePart.encode, getField]
  | data q =>
    have hq := dataPart_roundtrip q
    cases q with
    | mk d m =>
      simp only [Part.encode, Part.decode, DataPart.encode, getField]
      simp_all [DataPart.encode, getField]

/-- Mapping a list decoder over the element-wise encodings recovers the list;
used for the `parts`, `artifacts`, `history` and `skills` list fields. -/
theorem decodeList_map_encode {α : Type} (enc : α → Json) (dec : Json → Option α) :
    ∀ (xs : List α), (∀ x ∈ xs, dec (enc x) = some x) →
      decodeList dec (xs.map enc) = some xs := by
  intro xs h
  induction xs with
  | nil => rfl
  | cons a as ih =>
    have ha : dec (enc a) = some a := h a (List.mem_cons_self a as)
    have has : ∀ x ∈ as, dec (enc x) = some x := fun x hx => h x (List.mem_cons_of_mem a hx)
    simp [decodeList, ha, ih has]

theorem decodeOptField_not_null {α : Type} (dec : Json → Option α) (j : Json)
    (h : j ≠ Json.null) : decodeOptField dec (some j) = (dec j).map some := by
  cases j <;> simp_all [decodeOptField]

theorem message_roundtrip (m : Message) (h : m.valid = true) :
    Message.decode m.encode = some m := by
  cases m with
  | mk r ps md =>
    have hall : ∀ x ∈ ps, Part.valid x = true := by
      simpa [Message.valid, List.all_eq_true] using h
    have hps : decodeList Part.decode (ps.map Part.encode) = some ps :=
      decodeList_map_encode _ _ _ (fun x hx => part_roundtrip x (hall x hx))
    cases r <;> cases md <;>
      simp_all [Message.encode, Message.decode, getField, encodeMeta,
        decodeMeta, decodeRoleField, Role.toStr, Role.fromStr]

theorem taskStatus_roundtrip (st : TaskStatus) (fresh : String)
    (h : st.valid = true) : TaskStatus.decode fresh st.encode = some st := by
  cases st with
  | mk s msg ts =>
    cases msg with
    | none =>
      cases s <;>
        simp [TaskStatus.encode, TaskStatus.decode, getField, encodeOpt,
          decodeOptField, decodeStateField, decodeTimestampField,
          TaskState.toStr, TaskState.fromStr]
    | some m =>
      have hm : Message.decode m.encode = some m :=
        message_roundtrip m (by simpa [TaskStatus.valid] using h)
      have henc : encodeOpt Message.encode (some m) = Message.encode m := rfl
      cases s <;> cases m <;>
        simp_all [TaskStatus.encode, TaskStatus.decode, getField, encodeOpt,
          decodeOptField, decodeStateField, decodeTimestampField,
          TaskState.toStr, TaskState.fromStr, Message.encode]

theorem artifact_roundtrip (a : Artifact) (h : a.valid = true) :
    Artifact.decode a.encode = some a := by
  cases a with
  | mk n d ps md i ap lc =>
    have hall : ∀ x ∈ ps, Part.valid x = true := by
      simpa [Artifact.valid, List.all_eq_true] using h
    have hps : decodeList Part.decode (ps.map Part.encode) = some ps :=
      decodeList_map_encode _ _ _ (fun x hx => part_roundtrip x (hall x hx))
    cases n <;> cases d <;> cases md <;> cases ap <;> cases lc <;>
      simp_all [Artifact.encode, Artifact.decode, getField, encodeOptStr,
        decodeOptStrField, encodeMeta, decodeMeta, encodeOptBool,
        decodeOptBoolField, decodeIntFieldD]

theorem task_roundtrip (t : Task) (fresh : String) (h : t.valid = true) :
    Task.decode fresh t.encode = some t := by
  cases t with
  | mk i sid st arts hist md =>
    have hst : st.valid = true := by
      simp [Task.valid] at h; exact h.1.1
    have hstd : TaskStatus.decode fresh st.encode = some st :=
      taskStatus_roundtrip st fresh hst
    have harts : decodeOptListField Artifact.decode
        (some (encodeOpt (fun l => Json.arr (l.map Artifact.encode)) arts)) = some arts := by
      cases arts with
      | none => rfl
      | some l =>
        have hl : ∀ x ∈ l, Artifact.valid x = true := by
          simp [Task.valid, List.all_eq_true] at h; exact h.1.2
        have : decodeList Artifact.decode (l.map Artifact.encode) = some l :=
          decodeList_map_encode _ _ _ (fun x hx => artifact_roundtrip x (hl x hx))
        simp [encodeOpt, decodeOptListField, this]
    have hhist : decodeOptListField Message.decode
        (some (encodeOpt (fun l => Json.arr (l.map Message.encode)) hist)) = some hist := by
      cases hist with
      | none => rfl
      | some l =>
        have hl : ∀ x ∈ l, Message.valid x = true := by
          simp [Task.valid, List.all_eq_true] at h; exact h.2
        have : decodeList Message.decode (l.map Message.encode) = some l :=
          decodeList_map_encode _ _ _ (fun x hx => message_roundtrip x (hl x hx))
        simp [encodeOpt, decodeOptListField, this]
    have hste : ∃ fs, st.encode = Json.obj fs := ⟨_, rfl⟩
    cases sid <;> cases md <;>
      simp_all [Task.encode, Task.decode, getField, encodeOptStr,
        decodeOptStrField, decodeStrField, encodeMeta, decodeMeta]

theorem decodeList_strs (l : List String) :
    decodeList decodeStr (l.map Json.str) = some l := by
  induction l with
  | nil => rfl
  | cons a as ih => simp [decodeList, decodeStr, ih]

theorem authenticationInfo_roundtrip (ai : AuthenticationInfo) :
    AuthenticationInfo.decode ai.encode = some ai := by
  cases ai with
  | mk s c =>
    cases c <;>
      simp [AuthenticationInfo.encode, AuthenticationInfo.decode, getField,
        decodeList_strs, encodeOptStr, decodeOptStrField]

theorem pushNotificationConfig_roundtrip (c : PushNotificationConfig) :
    PushNotificationConfig.decode c.encode = some c := by
  obtain ⟨u, t, a⟩ := c
  have ha : decodeOptField AuthenticationInfo.decode
      (some (encodeOpt AuthenticationInfo.encode a)) = some a := by
    cases a with
    | none => rfl
    | some ai =>
      have hne : ai.encode ≠ Json.null := by
        obtain ⟨s, cr⟩ := ai; simp [AuthenticationInfo.encode]
      simp [encodeOpt, decodeOptField_not_null _ _ hne,
        authenticationInfo_roundtrip ai]
  cases t <;>
    simp_all [PushNotificationConfig.encode, PushNotificationConfig.decode,
      getField, encodeOptStr, decodeOptStrField, decodeStrField]

theorem taskSendParams_roundtrip (p : TaskSendParams) (fresh : String)
    (h : p.valid = true) : TaskSendParams.decode fresh p.encode = some p := by
  cases p with
  | mk i sid msg aom pn hl md =>
    have hmsg : Message.decode msg.encode = some msg :=
      message_roundtrip msg (by simpa [TaskSendParams.valid] using h)
    have hmsge : (some msg.encode).bind Message.decode = some msg := by
      simp [hmsg]
    have haom : decodeOptStrListField
        (some (encodeOpt (fun l => Json.arr (l.map Json.str)) aom)) = some aom := by
      cases aom <;> simp [encodeOpt, decodeOptStrListField, decodeList_strs]
    have hpn : decodeOptField PushNotificationConfig.decode
        (some (encodeOpt PushNotificationConfig.encode pn)) = some pn := by
      cases pn with
      | none => rfl
      | some c =>
        have hne : c.encode ≠ Json.null := by
          obtain ⟨cu, ct, ca⟩ := c; simp [PushNotificationConfig.encode]
        simp [encodeOpt, decodeOptField_not_null _ _ hne,
          pushNotificationConfig_roundtrip c]
    have hmsgo : ∃ fs, msg.encode = Json.obj fs := by
      cases msg with
      | mk r ps m => exact ⟨_, rfl⟩
    obtain ⟨fs, hfs⟩ := hmsgo
    cases hl <;> cases md <;>
      simp_all [TaskSendParams.encode, TaskSendParams.decode, getField,
        decodeStrField, decodeStrFieldD, encodeMeta, decodeMeta, encodeOpt,
        decodeOptIntField]

theorem sendTaskRequest_roundtrip (r : SendTaskRequest) (fresh : String)
    (h : r.valid = true) : SendTaskRequest.decode fresh r.encode = some r := by
  obtain ⟨i, p⟩ := r
  have hp : TaskSendParams.decode fresh p.encode = some p :=
    taskSendParams_roundtrip p fresh (by simpa [SendTaskRequest.valid] using h)
  have hpe : ∃ fs, p.encode = Json.obj fs := by
    obtain ⟨_, _, _, _, _, _, _⟩ := p; exact ⟨_, rfl⟩
  obtain ⟨fs, hfs⟩ := hpe
  cases i <;>
    simp_all [SendTaskRequest.encode, SendTaskRequest.decode, getField,
      checkLiteralField, RpcId.encode, decodeRpcIdField]

theorem agentProvider_roundtrip (p : AgentProvider) :
    AgentProvider.decode p.encode = some p := by
  obtain ⟨o, u⟩ := p
  cases u <;>
    simp [AgentProvider.encode, AgentProvider.decode, getField,
      decodeStrField, encodeOptStr, decodeOptStrField]

theorem agentCapabilities_roundtrip (c : AgentCapabilities) :
    AgentCapabilities.decode c.encode = some c := by
  obtain ⟨s, pn, st⟩ := c
  simp [AgentCapabilities.encode, AgentCapabilities.decode, getField,
    decodeBoolFieldD]

theorem agentAuthentication_roundtrip (a : AgentAuthentication) :
    AgentAuthentication.decode a.encode = some a := by
  obtain ⟨s, c⟩ := a
  cases c <;>
    simp [AgentAuthentication.encode, AgentAuthentication.decode, getField,
      decodeList_strs, encodeOptStr, decodeOptStrField]

theorem agentSkill_roundtrip (s : AgentSkill) :
    AgentSkill.decode s.encode = some s := by
  obtain ⟨i, n, d, t, e, im, om⟩ := s
  have hl : ∀ o : Option (List String),
      decodeOptStrListField (some (encodeOpt (fun l => Json.arr (l.map Json.str)) o)) =
        some o := by
    intro o; cases o <;> simp [encodeOpt, decodeOptStrListField, decodeList_strs]
  cases d <;>
    simp [AgentSkill.encode, AgentSkill.decode, getField, decodeStrField,
      encodeOptStr, decodeOptStrField, hl]

theorem agentCard_roundtrip (c : AgentCard) :
    AgentCard.decode c.encode = some c := by
  obtain ⟨n, d, u, p, v, du, cap, au, dim, dom, sk⟩ := c
  have hp : decodeOptField AgentProvider.decode
      (some (encodeOpt AgentProvider.encode p)) = some p := by
    cases p with
    | none => rfl
    | some q =>
      have hne : q.encode ≠ Json.null := by
        obtain ⟨_, _⟩ := q; simp [AgentProvider.encode]
      simp [encodeOpt, decodeOptField_not_null _ _ hne, agentProvider_roundtrip q]
  have hau : decodeOptField AgentAuthentication.decode
      (some (encodeOpt AgentAuthentication.encode au)) = some au := by
    cases au with
    | none => rfl
    | some q =>
      have hne : q.encode ≠ Json.null := by
        obtain ⟨_, _⟩ := q; simp [AgentAuthentication.encode]
      simp [encodeOpt, decodeOptField_not_null _ _ hne,
        agentAuthentication_roundtrip q]
  have hcap : AgentCapabilities.decode cap.encode = some cap :=
    agentCapabilities_roundtrip cap
  have hcapo : ∃ fs, cap.encode = Json.obj fs := by
    obtain ⟨_, _, _⟩ := cap; exact ⟨_, rfl⟩
  obtain ⟨cfs, hcfs⟩ := hcapo
  have hsk : decodeList AgentSkill.decode (sk.map AgentSkill.encode) = some sk :=
    decodeList_map_encode _ _ _ (fun x _ => agentSkill_roundtrip x)
  cases d <;> cases du <;>
    simp_all [AgentCard.encode, AgentCard.decode, getField, decodeStrField,
      encodeOptStr, decodeOptStrField, decodeStrListFieldD, decodeList_strs]

/-- C3 counterexample: the claim says the seven states `submitted, working,
input_required, completed, canceled, failed, unknown` all decode; in
`0.1/common/types.py` the `TaskState` enum has only four members, so
`canceled`, `input_required` and `unknown` are rejected (shown at the
concrete strings), while the four declared members decode. -/
theorem taskState_seven_values_refuted :
    (TaskState.fromStr "canceled").isSome = false ∧
    (TaskState.fromStr "input_required").isSome = false ∧
    (TaskState.fromStr "unknown").isSome = false ∧
    (TaskState.fromStr "completed").isSome = true := by
  decide

theorem taskState_fromStr_isSome_iff (s : String) :
    (TaskState.fromStr s).isSome = true ↔
      s = "submitted" ∨ s = "working" ∨ s = "completed" ∨ s = "failed" := by
  unfold TaskState.fromStr
  split_ifs <;> simp_all

/-- C3 (amended): the `TaskState` of `0.1/common/types.py` admits exactly the
four values `submitted`, `working`, `completed`, `failed`: a `TaskStatus`
with the mandatory fields decodes successfully exactly for these four state
strings, and for no other string. -/
theorem taskState_exactly_four_values :
    ∀ (s ts fresh : String),
      (TaskStatus.decode fresh
        (Json.obj [("state", Json.str s), ("timestamp", Json.str ts)])).isSome = true ↔
      s = "submitted" ∨ s = "working" ∨ s = "completed" ∨ s = "failed" := by
  intro s ts fresh
  rw [← taskState_fromStr_isSome_iff s]
  rcases h : TaskState.fromStr s with _ | st <;>
    simp [TaskStatus.decode, getField, decodeStateField, decodeOptField,
      decodeTimestampField, h]

/-- C7 counterexample: `FileContent.check_content` tests Python truthiness,
not field presence. A file part carrying both `bytes` (the empty string) and
`uri` is accepted by the decoder, and one carrying only `bytes = ""`
(exactly one field present) is rejected — both against the claim that
decoding succeeds exactly when exactly one of the two fields is present. -/
theorem fileContent_presence_claim_refuted :
    FileContent.decode
        (Json.obj [("bytes", Json.str ""), ("uri", Json.str "u")]) =
      some ⟨none, none, some "", some "u"⟩ ∧
    FileContent.decode (Json.obj [("bytes", Json.str "")]) = none := by
  constructor <;> rfl

/-- C7 (amended): decoding a file content succeeds exactly when exactly one
of `bytes` and `uri` is truthy in Python's sense (present and non-empty):
the `check_content` validator tests `bytes or uri` and `bytes and uri`
under truthiness, so empty-string fields count as absent. -/
theorem fileContent_decode_iff_exactly_one_truthy :
    ∀ fc : FileContent,
      (FileContent.decode fc.encode).isSome = (truthy fc.bytes ^^ truthy fc.uri) := by
  intro fc
  obtain ⟨n, mt, b, u⟩ := fc
  have hx : ∀ x y : Bool, ((x || y) && !(x && y)) = (x ^^ y) := by decide
  cases n <;> cases mt <;> cases b <;> cases u <;>
    simp [FileContent.encode, FileContent.decode, getField, encodeOptStr,
      decodeOptStrField, FileContent.check, ← hx] <;>
    split <;> simp_all

/-- C9: encode/decode is the identity on valid values of each wire type:
parts, messages, artifacts, tasks, agent cards and the `tasks/send` JSON-RPC
envelope. Validity is the only source-declared constraint (the
`FileContent.check_content` validator); `fresh` is the `default_factory`
material used when an optional defaulted field is absent, which encodings
never are. -/
theorem wire_roundtrip_identity :
    (∀ p : Part, p.valid = true → Part.decode p.encode = some p) ∧
    (∀ m : Message, m.valid = true → Message.decode m.encode = some m) ∧
    (∀ a : Artifact, a.valid = true → Artifact.decode a.encode = some a) ∧
    (∀ (t : Task) (fresh : String), t.valid = true →
      Task.decode fresh t.encode = some t) ∧
    (∀ c : AgentCard, AgentCard.decode c.encode = some c) ∧
    (∀ (r : SendTaskRequest) (fresh : String), r.valid = true →
      SendTaskRequest.decode fresh r.encode = some r) :=
  ⟨part_roundtrip, message_roundtrip, artifact_roundtrip,
   task_roundtrip, agentCard_roundtrip, sendTaskRequest_roundtrip⟩

theorem wire_roundtrip_identity_witness :
    Task.decode "f" sampleTask.encode = some sampleTask ∧
    SendTaskRequest.decode "f" sampleRequest.encode = some sampleRequest :=
  ⟨wire_roundtrip_identity.2.2.2.1 sampleTask "f" rfl,
   wire_roundtrip_identity.2.2.2.2.2 sampleRequest "f" rfl⟩

end A2AWire

namespace TaskMgr

open A2AWire

/-- C8 counterexample: a request whose message has an empty `parts` list is
not rejected with invalid params (-32602): `_validate_request` passes it,
and `on_send_task` ends in a raised `ValueError` from `_get_user_query`,
not in a -32602 error response. -/
theorem empty_parts_no_invalid_params :
    validateRequest emptyPartsParams = none ∧
    onSendTaskOutcome emptyPartsParams =
      SendOutcome.raised "Message parts cannot be empty" :=
  ⟨rfl, rfl⟩

/-- C8 (amended): a `tasks/send` request whose message has an empty `parts`
list passes `_validate_request` (which checks only output-mode compatibility
and the push-notification URL, so no -32602 is produced for empty parts);
processing then raises `ValueError("Message parts cannot be empty")` from
`_get_user_query`, and the agent is never invoked. -/
theorem empty_parts_raises_value_error (p : TaskSendParams)
    (hm : areModalitiesCompatible (p.acceptedOutputModes.getD [])
            supportedContentTypes = true)
    (hp : p.pushNotification = none)
    (he : p.message.parts = []) :
    onSendTaskOutcome p = SendOutcome.raised "Message parts cannot be empty" := by
  simp [onSendTaskOutcome, validateRequest, hm, hp, getUserQuery, he]

theorem empty_parts_raises_value_error_witness :
    onSendTaskOutcome emptyPartsParams =
      SendOutcome.raised "Message parts cannot be empty" :=
  empty_parts_raises_value_error emptyPartsParams rfl rfl rfl

end TaskMgr

namespace WebUI

theorem insertMessageHistory_id {α : Type} (t : Task α) (m : Option Message) :
    (insertMessageHistory t m).id = t.id := by
  cases m <;> rfl

theorem insertMessageHistory_status {α : Type} (t : Task α) (m : Option Message) :
    (insertMessageHistory t m).status = t.status := by
  cases m <;> rfl

theorem firstTask_id {α : Type} (tasks : List (Task α)) (tid : String) (t : Task α)
    (h : firstTask tasks tid = some t) : t.id = tid := by
  induction tasks with
  | nil => simp [firstTask] at h
  | cons hd rest ih =>
    by_cases hh : hd.id = tid
    · simp [firstTask, hh] at h; simp [← h, hh]
    · simp [firstTask, hh] at h; exact ih h

theorem firstTask_updateTask {α : Type} (tasks : List (Task α)) (nt : Task α)
    (h : (firstTask tasks nt.id).isSome = true) :
    firstTask (updateTask tasks nt) nt.id = some nt := by
  induction tasks with
  | nil => simp [firstTask] at h
  | cons hd rest ih =>
    by_cases hh : hd.id = nt.id
    · simp [updateTask, hh, firstTask]
    · simp [updateTask, hh, firstTask] at h ⊢
      exact ih h

/-- C1 (amended): the host-manager update paths apply updates
unconditionally. When a status update event arrives for a stored task —
even one whose state is terminal (`completed`, `canceled` or `failed`) —
the `task_callback` status branch overwrites the stored status with the
event's status; `update_task` performs the replacement with no
terminal-state check. -/
theorem terminal_task_update_succeeds {α : Type} (tasks : List (Task α))
    (e : TaskStatusUpdateEvent) (fresh : String) (t : Task α)
    (ht : firstTask tasks e.taskId = some t)
    (hterm : t.status.state.isTerminal = true)
    (hid : e.taskId ≠ "") :
    ∃ t', firstTask (handleStatusEvent tasks e fresh) e.taskId = some t' ∧
      t'.status = e.status := by
  have htid : t.id = e.taskId := firstTask_id tasks e.taskId t ht
  have hcid : (insertMessageHistory { t with status := e.status } e.status.message).id
      = e.taskId := by
    rw [insertMessageHistory_id]; exact htid
  refine ⟨insertMessageHistory { t with status := e.status } e.status.message,
    ?_, insertMessageHistory_status _ _⟩
  have hge : handleStatusEvent tasks e fresh =
      updateTask tasks
        (insertMessageHistory { t with status := e.status } e.status.message) := by
    unfold handleStatusEvent addOrGetTask
    simp only [if_neg hid, ht]
  rw [hge, ← hcid]
  exact firstTask_updateTask tasks _ (by rw [hcid, ht]; rfl)

theorem terminal_task_update_succeeds_witness :
    ∃ t', firstTask (handleStatusEvent [doneTask] lateEvent "fresh")
        lateEvent.taskId = some t' ∧ t'.status = lateEvent.status :=
  terminal_task_update_succeeds [doneTask] lateEvent "fresh" doneTask
    (by decide) (by decide) (by decide)

/-- C1 counterexample: a status update against a task whose state is
terminal (`completed`) does not fail and does not leave the record
unchanged — `task_callback`'s status branch overwrites the stored status
with `working`. -/
theorem terminal_task_mutated :
    handleStatusEvent [doneTask] lateEvent "fresh" =
      [⟨"t1", none, ⟨.working, none⟩, some [], none⟩] ∧
    handleStatusEvent [doneTask] lateEvent "fresh" ≠ [doneTask] := by
  decide

/-- C10: an `append=True` artifact update event whose `artifactId` has no
pending accumulator (no entry, or an empty chunk list) is silently
discarded: `process_artifact_event` returns with both the task's artifacts
and the chunk store unchanged. -/
theorem append_without_accumulator_discarded {α : Type} (t : Task α)
    (cs : Chunks α) (e : TaskArtifactUpdateEvent α)
    (ha : e.append = some true)
    (hc : lookupKey cs e.artifact.artifactId = none ∨
          lookupKey cs e.artifact.artifactId = some []) :
    processArtifactEvent t cs e = (t, cs) := by
  rcases hc with h | h <;> simp [processArtifactEvent, ha, truthyOB, h]

theorem append_without_accumulator_discarded_witness :
    processArtifactEvent doneTask ([] : Chunks Nat)
        ⟨"t1", none, ⟨"a1", none, [1]⟩, some true, some false⟩ =
      (doneTask, []) :=
  append_without_accumulator_discarded doneTask [] _ rfl (Or.inl rfl)

theorem lookupKey_append_self {β : Type} (C : List (String × β)) (k : String)
    (v : β) (h : lookupKey C k = none) : lookupKey (C ++ [(k, v)]) k = some v := by
  induction C with
  | nil => simp [lookupKey]
  | cons hd rest ih =>
    obtain ⟨k1, v1⟩ := hd
    by_cases hk : k = k1
    · simp [lookupKey, hk] at h
    · simp [lookupKey, hk] at h ⊢
      exact ih h

theorem setKey_append_self {β : Type} (C : List (String × β)) (k : String)
    (v nv : β) (h : lookupKey C k = none) :
    setKey (C ++ [(k, v)]) k nv = C ++ [(k, nv)] := by
  induction C with
  | nil => simp [setKey]
  | cons hd rest ih =>
    obtain ⟨k1, v1⟩ := hd
    by_cases hk : k = k1
    · simp [lookupKey, hk] at h
    · simp [lookupKey, hk] at h
      simp [setKey, hk, ih h]

theorem eraseKey_append_self {β : Type} (C : List (String × β)) (k : String)
    (v : β) (h : lookupKey C k = none) : eraseKey (C ++ [(k, v)]) k = C := by
  induction C with
  | nil => simp [eraseKey]
  | cons hd rest ih =>
    obtain ⟨k1, v1⟩ := hd
    by_cases hk : k = k1
    · simp [lookupKey, hk] at h
    · simp [lookupKey, hk] at h
      simp [eraseKey, hk, ih h]

theorem fold_mid_chunks {α : Type} (aid : String) (t : Task α) (C : Chunks α)
    (h : lookupKey C aid = none) (acc : Artifact α) (mids : List (List α)) :
    (mids.map (fun p =>
        (⟨aid, none, ⟨aid, none, p⟩, some true, some false⟩ :
          TaskArtifactUpdateEvent α))).foldl stepArtifact
        (t, C ++ [(aid, [acc])]) =
      (t, C ++ [(aid, [{ acc with parts := acc.parts ++ mids.flatten }])]) := by
  induction mids generalizing acc with
  | nil => simp
  | cons p ps ih =>
    have hstep : stepArtifact (t, C ++ [(aid, [acc])])
        ⟨aid, none, ⟨aid, none, p⟩, some true, some false⟩ =
        (t, C ++ [(aid, [{ acc with parts := acc.parts ++ p }])]) := by
      simp [stepArtifact, processArtifactEvent, truthyOB,
        lookupKey_append_self C aid [acc] h,
        setKey_append_self C aid [acc] _ h]
    simp only [List.map_cons, List.foldl_cons, hstep, ih]
    simp [List.append_assoc]

theorem artifactsAppend_eq {α : Type} (arts : Option (List (Artifact α)))
    (a : Artifact α) : artifactsAppend arts a = some (arts.getD [] ++ [a]) := by
  cases arts <;> rfl

/-- C2: a chunk sequence on one `artifactId` — opened with
`append=False, lastChunk=False`, continued with `append=True` chunks and
closed by `append=True, lastChunk=True` — leaves the task with exactly one
new artifact whose parts are the concatenation of all chunks' parts in
arrival order, and removes the temporary accumulator; and a single
`append=False` event with `lastChunk` true or unset is stored directly as a
complete artifact. -/
theorem chunked_artifact_assembled {α : Type} (t : Task α) (C : Chunks α)
    (a0 : Artifact α) (mids : List (List α)) (q : List α)
    (h : lookupKey C a0.artifactId = none) :
    (artifactChunkEvents a0 mids q).foldl stepArtifact (t, C) =
      ({ t with artifacts := some (t.artifacts.getD [] ++
          [{ a0 with parts := a0.parts ++ (mids.flatten ++ q) }]) }, C) ∧
    (∀ (t' : Task α) (cs : Chunks α) (a : Artifact α) (lc : Option Bool),
      lc = none ∨ lc = some true →
      processArtifactEvent t' cs ⟨a.artifactId, none, a, some false, lc⟩ =
        ({ t' with artifacts := some (t'.artifacts.getD [] ++ [a]) }, cs)) := by
  constructor
  · have h0 : stepArtifact (t, C) ⟨a0.artifactId, none, a0, some false, some false⟩ =
        (t, C ++ [(a0.artifactId, [a0])]) := by
      simp [stepArtifact, processArtifactEvent, truthyOB, chunksStash, h]
    have hacc := fold_mid_chunks a0.artifactId t C h a0 mids
    have hfin : stepArtifact
        (t, C ++ [(a0.artifactId, [{ a0 with parts := a0.parts ++ mids.flatten }])])
        ⟨a0.artifactId, none, ⟨a0.artifactId, none, q⟩, some true, some true⟩ =
        ({ t with artifacts := some (t.artifacts.getD [] ++
            [{ a0 with parts := a0.parts ++ (mids.flatten ++ q) }]) }, C) := by
      simp [stepArtifact, processArtifactEvent, truthyOB,
        lookupKey_append_self C a0.artifactId _ h,
        eraseKey_append_self C a0.artifactId _ h,
        artifactsAppend_eq, List.append_assoc]
    simp only [artifactChunkEvents, List.foldl_cons, List.foldl_append, h0,
      hacc, List.foldl, hfin]
  · intro t' cs a lc hlc
    rcases hlc with h' | h' <;>
      simp [processArtifactEvent, truthyOB, h', artifactsAppend_eq]

/-- The assembled three-chunk scenario of the spec's seed case, at concrete
inputs, through the theorem above. -/
theorem chunked_artifact_assembled_witness :
    (artifactChunkEvents (⟨"a1", none, [1]⟩ : Artifact Nat) [[2]] [3]).foldl
        stepArtifact (doneTask, []) =
      ({ doneTask with artifacts := some [⟨"a1", none, [1, 2, 3]⟩] }, []) := by
  have h := (chunked_artifact_assembled doneTask [] ⟨"a1", none, [1]⟩ [[2]] [3] rfl).1
  simpa using h

end WebUI

namespace App02

/-- C4: the agent-selection combiner of `SmartRequestHandler.execute`
(`0.2/app.py`): on LLM error use the scorer's verdict and confidence; on
agreement pick that agent with confidence `max(keyword_conf, 0.85)`; on
disagreement trust the LLM (confidence 0.8) when `keyword_conf < 0.65` and
otherwise the scorer with its own confidence. -/
theorem smart_combiner_policy :
    (∀ (kw : String) (kc : ℚ), combineAnalysis kw kc none = (kw, kc)) ∧
    (∀ (kw : String) (kc : ℚ),
      combineAnalysis kw kc (some kw) = (kw, max kc 0.85)) ∧
    (∀ (kw l : String) (kc : ℚ), kw ≠ l → kc < 0.65 →
      combineAnalysis kw kc (some l) = (l, 0.8)) ∧
    (∀ (kw l : String) (kc : ℚ), kw ≠ l → 0.65 ≤ kc →
      combineAnalysis kw kc (some l) = (kw, kc)) := by
  refine ⟨fun kw kc => rfl, fun kw kc => by simp [combineAnalysis],
    fun kw l kc h hlt => by simp [combineAnalysis, h, hlt],
    fun kw l kc h hge => by simp [combineAnalysis, h, not_lt.mpr hge]⟩

theorem smart_combiner_policy_witness :
    combineAnalysis "element" 0.5 (some "currency") = ("currency", 0.8) ∧
    combineAnalysis "currency" 0.7 (some "element") = ("currency", 0.7) :=
  ⟨smart_combiner_policy.2.2.1 "element" "currency" 0.5 (by decide) (by norm_num),
   smart_combiner_policy.2.2.2 "currency" "element" 0.7 (by decide) (by norm_num)⟩

theorem findSub_spec (text term : List Char) (pos : Nat)
    (h : findSub text term = some pos) :
    term <+: text.drop pos ∧ pos + term.length ≤ text.length := by
  induction text generalizing pos with
  | nil =>
    by_cases hp : term.isPrefixOf ([] : List Char)
    · simp only [findSub, hp, if_true] at h
      obtain rfl : pos = 0 := by simpa using h.symm
      have := List.isPrefixOf_iff_prefix.mp hp
      simpa using this
    · simp [findSub, hp] at h
  | cons c rest ih =>
    by_cases hp : term.isPrefixOf (c :: rest)
    · simp only [findSub, hp, if_true] at h
      obtain rfl : pos = 0 := by simpa using h.symm
      have hpre := List.isPrefixOf_iff_prefix.mp hp
      exact ⟨by simpa using hpre, by simpa using hpre.length_le⟩
    · rw [findSub, if_neg hp] at h
      cases hrest : findSub rest term with
      | none => rw [hrest] at h; simp at h
      | some p' =>
        rw [hrest] at h
        simp only [Option.map_some'] at h
        obtain rfl : pos = p' + 1 := by simpa using h.symm
        obtain ⟨h1, h2⟩ := ih p' hrest
        refine ⟨by simpa using h1, ?_⟩
        simp only [List.length_cons]
        omega

/-- C5 counterexample: the context window extracted by
`analyze_ambiguous_term_context` in `0.2/app.py` is not the ±100-character
window the claim describes — at a concrete query the two differ (the code
uses `window_size = 50`). -/
theorem window_radius_hundred_refuted :
    ambiguousWindow c5Text "gold".toList ≠ windowSpec 100 c5Text "gold".toList := by
  decide

/-- C5 (amended): the context-window scoring of
`analyze_ambiguous_term_context` in `0.2/app.py` examines a window of ±50
characters around the occurrence of the term: the extraction equals the
radius-50 window of the spec's description, and whenever the term occurs,
the examined window contains the occurrence and spans at most
`len(term) + 2*50` characters. -/
theorem ambiguous_window_pm50 :
    (∀ text term, ambiguousWindow text term = windowSpec 50 text term) ∧
    (∀ (text term : List Char) (pos : Nat), findSub text term = some pos →
      ∃ w, ambiguousWindow text term = some w ∧
        w.length ≤ term.length + 100 ∧ term <:+: w) := by
  constructor
  · intro text term; rfl
  · intro text term pos h
    obtain ⟨hpre, hle⟩ := findSub_spec text term pos h
    have hwin : ambiguousWindow text term =
        some ((text.drop (pos - 50)).take
          (min text.length (pos + term.length + 50) - (pos - 50))) := by
      simp [ambiguousWindow, h]
    refine ⟨_, hwin, ?_, ?_⟩
    · have h1 := Nat.min_le_right text.length (pos + term.length + 50)
      have h2 := List.length_take_le
        (min text.length (pos + term.length + 50) - (pos - 50))
        (text.drop (pos - 50))
      omega
    · have hps : pos + term.length ≤ min text.length (pos + term.length + 50) :=
        le_min hle (by omega)
      have hdrop : ((text.drop (pos - 50)).take
            (min text.length (pos + term.length + 50) - (pos - 50))).drop (pos - (pos - 50))
          = (text.drop pos).take (min text.length (pos + term.length + 50) - pos) := by
        rw [List.drop_take, List.drop_drop]
        have e1 : (pos - 50) + (pos - (pos - 50)) = pos := by omega
        have e2 : (min text.length (pos + term.length + 50) - (pos - 50)) -
              (pos - (pos - 50)) = min text.length (pos + term.length + 50) - pos := by
          omega
        rw [e1, e2]
      have hw : term <+: ((text.drop (pos - 50)).take
          (min text.length (pos + term.length + 50) - (pos - 50))).drop
            (pos - (pos - 50)) := by
        rw [hdrop, List.prefix_take_iff]
        exact ⟨hpre, by omega⟩
      obtain ⟨tail, htail⟩ := hw
      refine ⟨((text.drop (pos - 50)).take
          (min text.length (pos + term.length + 50) - (pos - 50))).take
            (pos - (pos - 50)), tail, ?_⟩
      rw [List.append_assoc, htail, List.take_append_drop]

theorem ambiguous_window_pm50_witness :
    findSub ("xxgoldyy".toList) ("gold".toList) = some 2 ∧
    ∃ w, ambiguousWindow ("xxgoldyy".toList) ("gold".toList) = some w ∧
      w.length ≤ "gold".toList.length + 100 ∧ "gold".toList <:+: w :=
  ⟨by decide, ambiguous_window_pm50.2 ("xxgoldyy".toList) ("gold".toList) 2 (by decide)⟩

theorem oldestEntry_eq_none {κ α : Type} (es : List (κ × α × Nat)) :
    oldestEntry es = none ↔ es = [] := by
  cases es with
  | nil => simp [oldestEntry]
  | cons hd rest =>
    obtain ⟨k, r, ts⟩ := hd
    simp only [oldestEntry]
    constructor
    · intro h
      rcases hrest : oldestEntry rest with _ | ⟨k', ts'⟩
      · simp only [hrest] at h
        exact absurd h (by simp)
      · simp only [hrest] at h
        split_ifs at h <;> simp at h
    · intro h; simp at h

theorem oldestEntry_min {κ α : Type} [DecidableEq κ] (es : List (κ × α × Nat))
    (k : κ) (ts : Nat) (h : oldestEntry es = some (k, ts)) :
    ∀ (k' : κ) (r' : α) (ts' : Nat),
      lookupKey es k' = some (r', ts') → ts ≤ ts' := by
  induction es generalizing k ts with
  | nil => simp [oldestEntry] at h
  | cons hd rest ih =>
    obtain ⟨k0, r0, ts0⟩ := hd
    intro k' r' ts' hl
    simp only [oldestEntry] at h
    rcases hrest : oldestEntry rest with _ | ⟨k1, ts1⟩ <;> simp only [hrest] at h
    · have hre : rest = [] := (oldestEntry_eq_none rest).mp hrest
      subst hre
      simp only [Option.some_inj, Prod.mk.injEq] at h
      obtain ⟨rfl, rfl⟩ := h
      by_cases hk : k' = k0
      · simp [lookupKey, hk] at hl; omega
      · simp [lookupKey, hk] at hl
    · split_ifs at h with hts <;>
        simp only [Option.some_inj, Prod.mk.injEq] at h <;>
        obtain ⟨rfl, rfl⟩ := h
      · by_cases hk : k' = k0
        · simp [lookupKey, hk] at hl; omega
        · simp [lookupKey, hk] at hl
          exact le_trans hts (ih k1 ts1 hrest k' r' ts' hl)
      · by_cases hk : k' = k0
        · simp [lookupKey, hk] at hl; omega
        · simp [lookupKey, hk] at hl
          exact ih k1 ts1 hrest k' r' ts' hl

theorem oldestEntry_lookup_isSome {κ α : Type} [DecidableEq κ]
    (es : List (κ × α × Nat)) (k : κ) (ts : Nat)
    (h : oldestEntry es = some (k, ts)) :
    (lookupKey es k).isSome = true := by
  induction es generalizing k ts with
  | nil => simp [oldestEntry] at h
  | cons hd rest ih =>
    obtain ⟨k0, r0, ts0⟩ := hd
    simp only [oldestEntry] at h
    rcases hrest : oldestEntry rest with _ | ⟨k1, ts1⟩ <;> simp only [hrest] at h
    · simp only [Option.some_inj, Prod.mk.injEq] at h
      obtain ⟨rfl, rfl⟩ := h
      simp [lookupKey]
    · split_ifs at h with hts <;>
        simp only [Option.some_inj, Prod.mk.injEq] at h <;>
        obtain ⟨rfl, rfl⟩ := h
      · simp [lookupKey]
      · by_cases hk : k1 = k0
        · simp [lookupKey, hk]
        · simp [lookupKey, hk]
          exact ih k1 ts1 hrest

theorem length_setKey {κ β : Type} [DecidableEq κ] (es : List (κ × β)) (k : κ) (v : β) :
    (setKey es k v).length = es.length := by
  induction es with
  | nil => rfl
  | cons hd rest ih =>
    obtain ⟨k0, v0⟩ := hd
    by_cases hk : k = k0 <;> simp [setKey, hk, ih]

theorem length_eraseKey {κ β : Type} [DecidableEq κ] (es : List (κ × β)) (k : κ)
    (h : (lookupKey es k).isSome = true) :
    (eraseKey es k).length + 1 = es.length := by
  induction es with
  | nil => simp [lookupKey] at h
  | cons hd rest ih =>
    obtain ⟨k0, v0⟩ := hd
    by_cases hk : k = k0
    · simp [eraseKey, hk]
    · simp [lookupKey, hk] at h
      simp [eraseKey, hk, ih h]

theorem length_setOrAppend {κ β : Type} [DecidableEq κ] (es : List (κ × β)) (k : κ)
    (v : β) : (setOrAppend es k v).length ≤ es.length + 1 := by
  unfold setOrAppend
  rcases h : lookupKey es k with _ | w <;> simp [length_setKey]

theorem lookup_none_of_not_mem {κ β : Type} [DecidableEq κ] (es : List (κ × β)) (k : κ)
    (h : k ∉ es.map Prod.fst) : lookupKey es k = none := by
  induction es with
  | nil => rfl
  | cons hd rest ih =>
    obtain ⟨k0, v0⟩ := hd
    simp only [List.map_cons, List.mem_cons] at h
    push_neg at h
    simp [lookupKey, h.1, ih h.2]

theorem lookup_eraseKey_self {κ β : Type} [DecidableEq κ] (es : List (κ × β)) (k : κ)
    (hnd : (es.map Prod.fst).Nodup) : lookupKey (eraseKey es k) k = none := by
  induction es with
  | nil => rfl
  | cons hd rest ih =>
    obtain ⟨k0, v0⟩ := hd
    simp only [List.map_cons, List.nodup_cons] at hnd
    by_cases hk : k = k0
    · simp [eraseKey, hk]
      exact lookup_none_of_not_mem rest k0 hnd.1
    · simp [eraseKey, hk, lookupKey, ih hnd.2]

theorem lookup_setKey_ne {κ β : Type} [DecidableEq κ] (es : List (κ × β)) (k key : κ)
    (v : β) (h : k ≠ key) : lookupKey (setKey es key v) k = lookupKey es k := by
  induction es with
  | nil => rfl
  | cons hd rest ih =>
    obtain ⟨k0, v0⟩ := hd
    by_cases hk : key = k0
    · subst hk
      simp [setKey, lookupKey, h]
    · by_cases hk2 : k = k0 <;> simp [setKey, hk, lookupKey, hk2, ih]

theorem lookup_setOrAppend_ne {κ β : Type} [DecidableEq κ] (es : List (κ × β))
    (k key : κ) (v : β) (h : k ≠ key) :
    lookupKey (setOrAppend es key v) k = lookupKey es k := by
  unfold setOrAppend
  rcases hl : lookupKey es key with _ | w
  · induction es with
    | nil => simp [lookupKey, h]
    | cons hd rest ih =>
      obtain ⟨k0, v0⟩ := hd
      by_cases hk : k = k0
      · simp [lookupKey, hk]
      · simp only [lookupKey, if_neg hk] at hl ⊢
        by_cases hkey : key = k0
        · simp [lookupKey, hkey] at hl
        · simp only [lookupKey, if_neg hkey] at hl
          simp [List.cons_append, lookupKey, hk] at ih ⊢
          exact ih hl
  · exact lookup_setKey_ne es k key v h

/-- C6 (amended): the `QueryCache` of `0.2/__main__.py` keys queries by
their normalized form (lowercased, whitespace collapsed), never returns an
entry older than `ttl` (default 3600 s), never grows beyond `max_size`
entries — but when full it evicts the entry with the oldest *stored
timestamp* (set at insertion; `get` does not refresh it), i.e. the oldest
write, not the least-recently-used entry. -/
theorem query_cache_behavior {α : Type} :
    (∀ (c : QueryCache α) (q₁ q₂ : List Char) (r : α) (now : Nat),
      normalizeQuery q₁ = normalizeQuery q₂ →
      c.get q₁ now = c.get q₂ now ∧ c.set q₁ r now = c.set q₂ r now) ∧
    (∀ (c : QueryCache α) (q : List Char) (now : Nat) (r : α),
      (c.get q now).1 = some r →
      ∃ ts, lookupKey c.cache (normalizeQuery q) = some (r, ts) ∧
        now - ts ≤ c.ttl) ∧
    (∀ (c : QueryCache α) (q : List Char) (r : α) (now : Nat),
      1 ≤ c.maxSize → c.cache.length ≤ c.maxSize →
      (c.set q r now).cache.length ≤ c.maxSize) ∧
    (∀ (c : QueryCache α) (q : List Char) (r : α) (now : Nat) (k : List Char) (ts : Nat),
      c.cache.length ≥ c.maxSize → oldestEntry c.cache = some (k, ts) →
      (∀ (k' : List Char) (r' : α) (ts' : Nat),
        lookupKey c.cache k' = some (r', ts') → ts ≤ ts') ∧
      ((c.cache.map Prod.fst).Nodup → k ≠ normalizeQuery q →
        lookupKey (c.set q r now).cache k = none)) := by
  refine ⟨?_, ?_, ?_, ?_⟩
  · intro c q₁ q₂ r now h
    constructor <;> simp [QueryCache.get, QueryCache.set, h]
  · intro c q now r h
    rcases hl : lookupKey c.cache (normalizeQuery q) with _ | ⟨r0, ts0⟩
    · simp [QueryCache.get, hl] at h
    · simp only [QueryCache.get, hl] at h
      split_ifs at h with httl
      obtain rfl : r0 = r := by simpa using h
      exact ⟨ts0, rfl, httl⟩
  · intro c q r now hmax hlen
    unfold QueryCache.set
    by_cases hfull : c.cache.length ≥ c.maxSize
    · have hne : c.cache ≠ [] := by
        intro he; rw [he] at hfull; simp at hfull; omega
      rcases ho : oldestEntry c.cache with _ | ⟨k, ts⟩
      · exact absurd ((oldestEntry_eq_none c.cache).mp ho) hne
      · have hp := oldestEntry_lookup_isSome c.cache k ts ho
        have he := length_eraseKey c.cache k hp
        have hs := length_setOrAppend (eraseKey c.cache k)
          (normalizeQuery q) (r, now)
        simp only [hfull, if_true, ho]
        omega
    · have hs := length_setOrAppend c.cache (normalizeQuery q) (r, now)
      simp only [hfull, if_false]
      omega
  · intro c q r now k ts hfull ho
    refine ⟨oldestEntry_min c.cache k ts ho, fun hnd hne => ?_⟩
    unfold QueryCache.set
    simp only [ge_iff_le, hfull, if_true, ho]
    rw [lookup_setOrAppend_ne _ _ _ _ hne]
    exact lookup_eraseKey_self c.cache k hnd

/-- C6 counterexample: the eviction policy is not least-recently-used. With
capacity 2, after writing `a` then `b`, then *reading* `a` (so `b` is the
least recently used key), inserting `c` evicts `a` — the entry with the
oldest write timestamp — while `b` survives. -/
theorem lru_eviction_refuted :
    (((((⟨[], 2, 1000⟩ : QueryCache Nat).set "a".toList 1 0).set
        "b".toList 2 1).get "a".toList 2).1 = some 1) ∧
    (lruCacheC6.get "a".toList 4).1 = none ∧
    (lruCacheC6.get "b".toList 4).1 = some 2 := by
  decide

theorem query_cache_behavior_witness :
    ((((⟨[], 2, 1000⟩ : QueryCache Nat).set "a".toList 1 0).set
        "b".toList 2 1).set "c".toList 3 3).cache.length ≤ 2 ∧
    ∃ ts, lookupKey lruCacheC6.cache (normalizeQuery "b".toList) = some (2, ts) ∧
      4 - ts ≤ lruCacheC6.ttl :=
  ⟨query_cache_behavior.2.2.1 (((⟨[], 2, 1000⟩ : QueryCache Nat).set
      "a".toList 1 0).set "b".toList 2 1) "c".toList 3 3 (by decide) (by decide),
   query_cache_behavior.2.1 lruCacheC6 "b".toList 4 2 (by decide)⟩

end App02
